import Mathlib

/-!
Verification of the error-handling core of the provider (aws/awserr.go):
error classifiers, retry executors, the encoded-authorization-message
decoder and the CRUD decoration transform.

Conventions of the embedding:
* A Go error value is `Option GoErr` (an interface that may be nil).
* Structured API errors (awserr.Error / awserr.RequestFailure) are the
  `awsError` / `requestFailure` constructors; `wrap` models an error
  produced by fmt.Errorf with a wrapping verb, `simple` a plain error
  value such as the one fmt.Errorf returns for the decoder rewrite.
* `errors.As` (which walks the unwrap chain) and a direct type assertion
  (which does not) are modelled separately.
* Machine time is abstracted: `resourceRetry` (external helper, modelled
  from the spec) is driven by an environment `env : Nat -> Nat` giving,
  for a time budget in nanoseconds, the number of invocations that fit
  into that budget before exhaustion.
* A Go computation that can panic returns `GoResult`.
-/

/-- A structured model of the Go error values this core consumes. -/
inductive GoErr where
  /-- A plain error value (errors.New, fmt.Errorf without a wrap verb). -/
  | simple (msg : String)
  /-- An error produced with a wrapping verb: unwraps to `inner`. -/
  | wrap (msg : String) (inner : GoErr)
  /-- An awserr.Error with a code and a message (not a request failure). -/
  | awsError (code msg : String)
  /-- An awserr.RequestFailure: code, message and transport status code. -/
  | requestFailure (code msg : String) (statusCode : Int)
deriving DecidableEq, Repr

/-- The Error() string of an error value.  For aws errors the SDK renders
"code: message"; only the `simple` and `wrap` cases matter to the claims. -/
def GoErr.errString : GoErr → String
  | .simple m => m
  | .wrap m _ => m
  | .awsError c m => c ++ ": " ++ m
  | .requestFailure c m s => c ++ ": " ++ m ++ "\n\tstatus code: " ++ toString s

/-- errors.As with an awserr.Error target: walks the unwrap chain and
returns the code and message of the first structured error found.
A RequestFailure also implements the awserr.Error interface. -/
def errorsAsAwsErr : GoErr → Option (String × String)
  | .simple _ => none
  | .wrap _ inner => errorsAsAwsErr inner
  | .awsError c m => some (c, m)
  | .requestFailure c m _ => some (c, m)

/-- errors.As with an awserr.RequestFailure target. -/
def errorsAsRequestFailure : GoErr → Option (String × String × Int)
  | .simple _ => none
  | .wrap _ inner => errorsAsRequestFailure inner
  | .awsError _ _ => none
  | .requestFailure c m s => some (c, m, s)

/-- A direct type assertion err.(awserr.Error): succeeds only when the
error value itself is structured, never unwrapping. -/
def typeAssertAwsErr : GoErr → Option (String × String)
  | .awsError c m => some (c, m)
  | .requestFailure c m _ => some (c, m)
  | .simple _ => none
  | .wrap _ _ => none

/-- strings.Contains. -/
def stringsContains (s sub : String) : Bool :=
  decide (sub.data <:+: s.data)

/-- isAWSErr from the source: errors.As to awserr.Error, then the code
must be equal and the message must contain the given substring. -/
def isAWSErr (err : Option GoErr) (code message : String) : Bool :=
  match err with
  | none => false
  | some e =>
    match errorsAsAwsErr e with
    | some (c, m) => c == code && stringsContains m message
    | none => false

/-- isAWSErrRequestFailureStatusCode from the source: errors.As to
awserr.RequestFailure, then the status code must be equal. -/
def isAWSErrRequestFailureStatusCode (err : Option GoErr) (statusCode : Int) : Bool :=
  match err with
  | none => false
  | some e =>
    match errorsAsRequestFailure e with
    | some (_, _, s) => s == statusCode
    | none => false

/-!
The pattern compiled at src/aws/awserr.go line 89:

  regexp.MustCompile of
  (?i)(.*) Encoded authorization failure message: ([\w-]+) ?( .*)?

FindStringSubmatch uses leftmost-first (backtracking-equivalent)
semantics.  The (?i) flag folds with unicode.SimpleFold: the only fold
orbits meeting ASCII are S, s, U+017F (long s) and K, k, U+212A (kelvin
sign), so each ASCII character of the literal also matches its case
pair plus, for s, U+017F (no k occurs in the literal), and the folded
token class adds U+017F and U+212A to the word characters and hyphen.
Because a dot never matches a newline and every other piece
of the pattern is newline-free, any match lies within a single line, the
match begins at the start of the first line containing an occurrence of
the literal, the greedy leading group selects the last occurrence on
that line, the token group takes the maximal run of its class, the
optional space consumes a following space when present,
and the final optional group matches only when yet another space
follows; otherwise it is unset (an empty capture).  The functions below
embed exactly this search, specialised to the fixed pattern.
-/

/-- The character class of the token group under the fold flag: ASCII
word characters or a hyphen, plus the two simple-fold extras U+017F
(folds with s) and U+212A (folds with k). -/
def isTokenChar (c : Char) : Bool :=
  (('a' ≤ c && c ≤ 'z') || ('A' ≤ c && c ≤ 'Z') || ('0' ≤ c && c ≤ '9')
    || c == '_' || c == '-' || c == '\u017F' || c == '\u212A')

/-- The literal core of the pattern, between the two capture groups. -/
def encAuthLit : List Char := " Encoded authorization failure message: ".data

/-- The canonical representative of a character under the simple case
folding the compiled pattern uses against its ASCII literal: the two
non-ASCII members of ASCII fold orbits collapse onto their lower-case
ASCII representative, every other character is ASCII-lowered.  Two
characters fold-match against the literal exactly when their canonical
forms are equal. -/
def foldCanon (c : Char) : Char :=
  if c == '\u017F' then 's'
  else if c == '\u212A' then 'k'
  else Char.toLower c

/-- Fold-canonical form of a character list. -/
def low (l : List Char) : List Char := l.map foldCanon

/-- Fold-insensitive test that `pat` is a prefix of `s`. -/
def ciStartsWith : List Char → List Char → Bool
  | [], _ => true
  | _ :: _, [] => false
  | p :: ps, c :: cs => (foldCanon c == foldCanon p) && ciStartsWith ps cs

/-- The capture of the final optional group, given the text that follows
the token group.  The greedy optional space consumes one following
space; the group itself then needs a second space, and its dot run
stops before a newline.  When the group does not participate the
submatch is the empty string. -/
def tailGroup : List Char → List Char
  | ' ' :: ' ' :: r => ' ' :: r.takeWhile (fun c => c ≠ '\n')
  | _ => []

/-- Attempt to match the pattern right after the leading greedy group:
the literal, then a nonempty token run, then the optional tail.
Returns the token and final-group captures. -/
def matchEncodedAt (s : List Char) : Option (List Char × List Char) :=
  if ciStartsWith encAuthLit s then
    let rest := s.drop encAuthLit.length
    let tok := rest.takeWhile isTokenChar
    if tok.isEmpty then none
    else some (tok, tailGroup (rest.dropWhile isTokenChar))
  else none

/-- Within one line, the greedy leading group selects the last position
at which the remainder of the pattern matches; the capture of the
leading group is the text before that position. -/
def lastMatchOnLine : List Char → Option (List Char × List Char × List Char)
  | [] => none
  | c :: cs =>
    match lastMatchOnLine cs with
    | some (g1, g2, g3) => some (c :: g1, g2, g3)
    | none =>
      match matchEncodedAt (c :: cs) with
      | some (g2, g3) => some ([], g2, g3)
      | none => none

/-- Split into lines at newline characters (a match never crosses a
newline, and the leftmost match lies on the first line that has one). -/
def splitLines : List Char → List (List Char)
  | [] => [[]]
  | c :: cs =>
    if c = '\n' then [] :: splitLines cs
    else
      match splitLines cs with
      | [] => [[c]]
      | l :: ls => (c :: l) :: ls

/-- The first line holding a match decides the result. -/
def firstLineMatch : List (List Char) → Option (List Char × List Char × List Char)
  | [] => none
  | l :: ls =>
    match lastMatchOnLine l with
    | some g => some g
    | none => firstLineMatch ls

/-- FindStringSubmatch of the compiled pattern: the three captures
(prefix, token, trailing group) or none when there is no match. -/
def findEncodedMessage (s : List Char) : Option (List Char × List Char × List Char) :=
  firstLineMatch (splitLines s)

/-- The result of a Go computation that may panic (a nil-interface
method call, a nil function call, or a failed type assertion). -/
inductive GoResult (α : Type) where
  | ok (val : α)
  | panicked
deriving DecidableEq, Repr

/-- Input of the STS DecodeAuthorizationMessage call; the field is a
string pointer, set with aws.String. -/
structure DecodeAuthorizationMessageInput where
  EncodedMessage : Option String
deriving DecidableEq, Repr

/-- Output of the STS DecodeAuthorizationMessage call; the decoded
message is a string pointer. -/
structure DecodeAuthorizationMessageOutput where
  DecodedMessage : Option String
deriving DecidableEq, Repr

/-- aws.String: boxes a string into a pointer. -/
def awsString (s : String) : Option String := some s

/-- aws.StringValue: dereferences a string pointer, with the empty
string for nil. -/
def awsStringValue : Option String → String
  | some s => s
  | none => ""

/-- The behaviour of a non-nil value implementing the stsDecoder
interface: DecodeAuthorizationMessage returns an output or an error. -/
def StsDecoderImpl : Type :=
  DecodeAuthorizationMessageInput → Except GoErr DecodeAuthorizationMessageOutput

/-- decodeAWSError from the source.  The decoder parameter is an
interface value, hence possibly nil.  For a nil error the body is
skipped.  Otherwise the pattern is applied to the Error() string; on a
match the decoder is invoked unconditionally (a nil decoder interface
makes this method call panic); when the decode call succeeds a fresh
error is built from the prefix capture, the decoded text and the
trailing capture, and when it fails the decode error is only logged and
the original error is returned. -/
def decodeAWSError (decoder : Option StsDecoderImpl) (err : Option GoErr) :
    GoResult (Option GoErr) :=
  match err with
  | none => .ok none
  | some e =>
    match findEncodedMessage e.errString.data with
    | some (g1, g2, g3) =>
      match decoder with
      | none => .panicked
      | some d =>
        match d { EncodedMessage := awsString (String.mk g2) } with
        | .ok result =>
          .ok (some (.simple (String.mk g1 ++ " Authorization failure message: \x27"
            ++ awsStringValue result.DecodedMessage ++ "\x27" ++ String.mk g3)))
        | .error _ => .ok (some e)
    | none => .ok (some e)

/-- The value built by resource.RetryableError / resource.NonRetryableError. -/
inductive RetryError where
  | retryable (e : GoErr)
  | nonRetryable (e : GoErr)
deriving DecidableEq, Repr

/-- Outcome of one bounded retry loop: success, a hard failure carrying
the last error, or exhaustion of the time budget while the last error
was retryable. -/
inductive RetryOutcome where
  | ok
  | failed (e : GoErr)
  | timedOut
deriving DecidableEq, Repr

/-- Modelled from the spec: tfresource.TimedOut (repository code outside
src/) recognises exactly the budget-exhaustion outcome of the retry
helper, and nothing else. -/
def tfresourceTimedOut : RetryOutcome → Bool
  | .timedOut => true
  | _ => false

/-- Modelled from the spec: the loop of resource.Retry (external
helper).  `inner` classifies the n-th invocation; `fuel` is how many
further invocations the budget still admits after the current one.  The
pair returned is the number of invocations performed and the outcome:
success stops at once, a non-retryable error stops at once with that
error, and a retryable error either continues after a backoff or, with
the budget exhausted, yields the timed-out outcome. -/
def resourceRetryGo (inner : Nat → Option RetryError) : Nat → Nat → Nat × RetryOutcome
  | fuel, k =>
    match inner k with
    | none => (k + 1, .ok)
    | some (.nonRetryable e) => (k + 1, .failed e)
    | some (.retryable _) =>
      match fuel with
      | 0 => (k + 1, .timedOut)
      | fuel' + 1 => resourceRetryGo inner fuel' (k + 1)

/-- Modelled from the spec: resource.Retry with a time budget in
nanoseconds.  The environment `env` abstracts real time: it gives the
number of invocations that fit into a budget before exhaustion (at
least one invocation always happens). -/
def resourceRetry (env : Nat → Nat) (budget : Nat) (inner : Nat → Option RetryError) :
    Nat × RetryOutcome :=
  resourceRetryGo inner (env budget - 1) 0

/-- time.Minute in nanoseconds. -/
def timeMinute : Nat := 60000000000

/-- The body of the closure passed to resource.Retry by retryOnAwsCode,
given the error of the current invocation: nil error succeeds; an error
is retryable exactly when a direct type assertion to awserr.Error
succeeds and the code is equal, and non-retryable otherwise. -/
def retryClassifyCode (code : String) (err : Option GoErr) : Option RetryError :=
  match err with
  | none => none
  | some e =>
    match typeAssertAwsErr e with
    | some (c, _) => if c == code then some (.retryable e) else some (.nonRetryable e)
    | none => some (.nonRetryable e)

/-- The body of the closure passed to resource.Retry by RetryOnAwsCodes:
as for retryClassifyCode, but retryable when the asserted code equals
any element of the list. -/
def retryClassifyCodes (codes : List String) (err : Option GoErr) : Option RetryError :=
  match err with
  | none => none
  | some e =>
    match typeAssertAwsErr e with
    | some (c, _) =>
      if codes.contains c then some (.retryable e) else some (.nonRetryable e)
    | none => some (.nonRetryable e)

/-- The epilogue both executors share: the mutable resp slot holds the
result of the last invocation; on a hard failure that invocation error
is returned with it; if the retry helper reports budget exhaustion
(tfresource.TimedOut), the operation is invoked one final time and
whatever it produces is returned. -/
def retryFinish {α : Type} (f : Nat → Option α × Option GoErr)
    (r : Nat × RetryOutcome) : Option α × Option GoErr :=
  if tfresourceTimedOut r.2 then f r.1
  else
    ((f (r.1 - 1)).1,
      match r.2 with
      | .failed e => some e
      | _ => none)

/-- retryOnAwsCode from the source: run resource.Retry for two minutes
with the single-code classifier, then the shared epilogue. -/
def retryOnAwsCode {α : Type} (env : Nat → Nat) (code : String)
    (f : Nat → Option α × Option GoErr) : Option α × Option GoErr :=
  retryFinish f
    (resourceRetry env (2 * timeMinute) (fun n => retryClassifyCode code (f n).2))

/-- RetryOnAwsCodes from the source: run resource.Retry for one minute
with the any-of-codes classifier, then the shared epilogue. -/
def RetryOnAwsCodes {α : Type} (env : Nat → Nat) (codes : List String)
    (f : Nat → Option α × Option GoErr) : Option α × Option GoErr :=
  retryFinish f
    (resourceRetry env (1 * timeMinute) (fun n => retryClassifyCodes codes (f n).2))

/-- Opaque model of *schema.ResourceData. -/
structure ResourceData where
  rid : Nat
deriving DecidableEq, Repr

/-- The provider client carried in the meta argument; the wrappers
extract its live STS connection (meta is always the provider client, so
the type assertion in the wrappers succeeds). -/
structure AWSClient where
  stsconn : StsDecoderImpl

/-- A create, read, update or delete function of a resource. -/
def LifecycleFunc : Type := ResourceData → AWSClient → GoResult (Option GoErr)

/-- An existence-check function of a resource. -/
def ExistsFunc : Type := ResourceData → AWSClient → GoResult (Bool × Option GoErr)

/-- An import-state function of a resource. -/
def ImportStateFunc : Type :=
  ResourceData → AWSClient → GoResult (List ResourceData × Option GoErr)

/-- schema.ResourceImporter: its State function slot may be a nil
function value. -/
structure ResourceImporter where
  State : Option ImportStateFunc

/-- schema.Resource: the six optional lifecycle slots this transform
touches. -/
structure Resource where
  Create : Option LifecycleFunc
  Read : Option LifecycleFunc
  Update : Option LifecycleFunc
  Delete : Option LifecycleFunc
  Exists : Option ExistsFunc
  Importer : Option ResourceImporter

/-- The wrapper built for a create, read, update or delete slot: run the
original function and pass its error through decodeAWSError with the
client STS connection. -/
def wrapLifecycle (g : LifecycleFunc) : LifecycleFunc := fun d meta =>
  match g d meta with
  | .panicked => .panicked
  | .ok err => decodeAWSError (some meta.stsconn) err

/-- The wrapper built for the Exists slot: the boolean result is passed
through unchanged next to the decoded error. -/
def wrapExists (g : ExistsFunc) : ExistsFunc := fun d meta =>
  match g d meta with
  | .panicked => .panicked
  | .ok (b, err) =>
    match decodeAWSError (some meta.stsconn) err with
    | .panicked => .panicked
    | .ok e2 => .ok (b, e2)

/-- The wrapper built for the Importer State slot.  The source guards
only on the Importer object, not on its State function, so a nil State
function is wrapped as well; the wrapper then calls a nil function and
panics when invoked. -/
def wrapImportState (st : Option ImportStateFunc) : ImportStateFunc := fun d meta =>
  match st with
  | none => .panicked
  | some g =>
    match g d meta with
    | .panicked => .panicked
    | .ok (rds, err) =>
      match decodeAWSError (some meta.stsconn) err with
      | .panicked => .panicked
      | .ok e2 => .ok (rds, e2)

/-- decodeErrorsForResource from the source: each non-empty slot among
Create, Update, Read, Delete and Exists is replaced by its wrapper, and
when the Importer object is present its State slot is replaced
by the importing wrapper. -/
def decodeErrorsForResource (r : Resource) : Resource :=
  { Create := r.Create.map wrapLifecycle
    Read := r.Read.map wrapLifecycle
    Update := r.Update.map wrapLifecycle
    Delete := r.Delete.map wrapLifecycle
    Exists := r.Exists.map wrapExists
    Importer :=
      match r.Importer with
      | none => none
      | some imp => some { State := some (wrapImportState imp.State) } }

/-- makeAuthZMessageDecodingResources from the source: apply
decodeErrorsForResource to every resource of the map and return the
same map. -/
def makeAuthZMessageDecodingResources (resources : List (String × Resource)) :
    List (String × Resource) :=
  resources.map fun nr => (nr.1, decodeErrorsForResource nr.2)

/-!  Concrete inputs used by the witnesses and counterexamples. -/

/-- The error message of the spec example. -/
def exMsg : String :=
  "AccessDenied: you are not authorized. Encoded authorization failure message: AbCd123-xyz extra info"

/-- A decoder capability that always succeeds with DECODED_TEXT. -/
def exDecoder : StsDecoderImpl := fun _ =>
  .ok { DecodedMessage := some "DECODED_TEXT" }

/-- A decoder capability whose decode call always errors. -/
def exFailDecoder : StsDecoderImpl := fun _ =>
  .error (.simple "unable to decode")

/-- An environment admitting two invocations within any budget. -/
def exEnv : Nat → Nat := fun _ => 2

/-- An operation that always fails with a retryable Throttling error. -/
def exThrottleOp : Nat → Option Nat × Option GoErr := fun n =>
  (some n, some (.awsError "Throttling" "busy"))

/-- An operation that always fails with an AccessDenied error. -/
def exDeniedOp : Nat → Option Nat × Option GoErr := fun n =>
  (some n, some (.awsError "AccessDenied" "stop"))

/-- An operation that always fails with a wrapped Throttling error. -/
def exWrappedOp : Nat → Option Nat × Option GoErr := fun n =>
  (some n, some (.wrap "operation failed" (.awsError "Throttling" "busy")))

/-- A resource whose Importer object is present with a nil State slot. -/
def exImporterOnlyResource : Resource :=
  { Create := none, Read := none, Update := none, Delete := none,
    Exists := none, Importer := some { State := none } }

/-- A create implementation returning an encoded authorization error. -/
def exCreateImpl : LifecycleFunc := fun _ _ =>
  .ok (some (.simple "denied. Encoded authorization failure message: tok-1 info"))

/-- An exists implementation succeeding with true and no error. -/
def exExistsImpl : ExistsFunc := fun _ _ => .ok (true, none)

/-- A resource with a create and an exists implementation. -/
def exResource : Resource :=
  { Create := some exCreateImpl, Read := none, Update := none, Delete := none,
    Exists := some exExistsImpl, Importer := none }

/-- A client whose STS connection always decodes successfully. -/
def exClient : AWSClient := { stsconn := exDecoder }

/-- Opaque resource state used when invoking example lifecycle functions. -/
def exData : ResourceData := { rid := 0 }

/-- A matching message, for exercising the nil-decoder path. -/
def exC2Err : GoErr := .simple " Encoded authorization failure message: tok"

/-- A message matching only case-insensitively: lower-case marker. -/
def exC6Err : GoErr := .simple " encoded authorization failure message: abc-123"

/-- A message carrying the marker with U+017F (long s) in the word
message: no case-sensitive and no ASCII-case-insensitive marker
occurrence, yet the compiled pattern fold-matches it. -/
def exC6FoldErr : GoErr := .simple " Encoded authorization failure meſſage: abc"

/-!  Helper lemmas. -/

/-- errors.As never finds a RequestFailure where it finds no awserr.Error. -/
theorem errorsAsRequestFailure_eq_none {e : GoErr}
    (h : errorsAsAwsErr e = none) : errorsAsRequestFailure e = none := by
  induction e with
  | simple m => rfl
  | wrap m inner ih => exact ih h
  | awsError c m => simp [errorsAsAwsErr] at h
  | requestFailure c m s => simp [errorsAsAwsErr] at h

/-- splitLines always yields a first line that is a prefix, and further
lines that are infixes, of the split list. -/
theorem splitLines_spec (s : List Char) :
    ∃ l ls, splitLines s = l :: ls ∧ l <+: s ∧ ∀ m ∈ ls, m <:+: s := by
  induction s with
  | nil => exact ⟨[], [], rfl, List.nil_prefix, by simp⟩
  | cons c cs ih =>
    obtain ⟨l, ls, hsplit, hpre, hinf⟩ := ih
    by_cases hc : c = '\n'
    · refine ⟨[], splitLines cs, by simp [splitLines, hc], List.nil_prefix, ?_⟩
      intro m hm
      rw [hsplit] at hm
      rcases List.mem_cons.mp hm with h | h
      · exact h ▸ List.infix_cons hpre.isInfix
      · exact List.infix_cons (hinf m h)
    · refine ⟨c :: l, ls, ?_, ?_, ?_⟩
      · simp [splitLines, hc, hsplit]
      · exact List.cons_prefix_cons.mpr ⟨rfl, hpre⟩
      · exact fun m hm => List.infix_cons (hinf m hm)

/-- Every line produced by splitLines is an infix of the original. -/
theorem mem_splitLines_within {s l : List Char} (h : l ∈ splitLines s) :
    l <:+: s := by
  obtain ⟨l0, ls, hsplit, hpre, hinf⟩ := splitLines_spec s
  rw [hsplit] at h
  rcases List.mem_cons.mp h with h | h
  · exact h ▸ hpre.isInfix
  · exact hinf l h

/-- A successful line match happens at some suffix of the line. -/
theorem lastMatchOnLine_suffix {l : List Char} {g : List Char × List Char × List Char}
    (h : lastMatchOnLine l = some g) :
    ∃ t, t <:+ l ∧ matchEncodedAt t = some (g.2.1, g.2.2) := by
  induction l generalizing g with
  | nil => simp [lastMatchOnLine] at h
  | cons c cs ih =>
    rw [lastMatchOnLine] at h
    cases htail : lastMatchOnLine cs with
    | some g' =>
      rw [htail] at h
      obtain ⟨g1, g2, g3⟩ := g'
      obtain ⟨t, hts, hmt⟩ := ih htail
      cases h
      exact ⟨t, hts.trans (List.suffix_cons c cs), hmt⟩
    | none =>
      rw [htail] at h
      cases hhead : matchEncodedAt (c :: cs) with
      | some p =>
        rw [hhead] at h
        obtain ⟨g2, g3⟩ := p
        cases h
        exact ⟨c :: cs, List.suffix_rfl, hhead⟩
      | none => rw [hhead] at h; cases h

/-- A successful pattern step starts with the literal, case-insensitively. -/
theorem matchEncodedAt_starts {t : List Char} {g : List Char × List Char}
    (h : matchEncodedAt t = some g) : ciStartsWith encAuthLit t = true := by
  rw [matchEncodedAt] at h
  by_cases hs : ciStartsWith encAuthLit t = true
  · exact hs
  · simp [hs] at h

/-- A case-insensitive prefix is a lowered prefix. -/
theorem low_prefix_of_ciStartsWith :
    ∀ {p s : List Char}, ciStartsWith p s = true → low p <+: low s
  | [], s, _ => List.nil_prefix
  | p :: ps, c :: cs, h => by
    rw [ciStartsWith, Bool.and_eq_true] at h
    obtain ⟨h1, h2⟩ := h
    have h1' : foldCanon c = foldCanon p := by
      exact eq_of_beq h1
    exact List.cons_prefix_cons.mpr ⟨h1'.symm, low_prefix_of_ciStartsWith h2⟩

/-- Lowering preserves infixes. -/
theorem low_infix_mono {l m : List Char} (h : l <:+: m) :
    low l <:+: low m := by
  obtain ⟨a, b, hab⟩ := h
  exact ⟨low a, low b, by rw [← hab]; simp [low]⟩

/-- Lowering preserves suffixes. -/
theorem low_suffix_of_suffix {l m : List Char} (h : l <:+ m) :
    low l <:+ low m := by
  obtain ⟨a, hab⟩ := h
  exact ⟨low a, by rw [← hab]; simp [low]⟩

/-- A line with a match contains the lowered literal. -/
theorem lastMatchOnLine_contains_lit {l : List Char} {g : List Char × List Char × List Char}
    (h : lastMatchOnLine l = some g) : low encAuthLit <:+: low l := by
  obtain ⟨t, hts, hmt⟩ := lastMatchOnLine_suffix h
  have hpre := low_prefix_of_ciStartsWith (matchEncodedAt_starts hmt)
  obtain ⟨a, ha⟩ := hpre
  obtain ⟨b, hb⟩ := low_suffix_of_suffix hts
  exact ⟨b, a, by rw [← hb, ← ha, List.append_assoc]⟩

/-- Contrapositive form: a line not containing the lowered literal has
no match. -/
theorem lastMatchOnLine_eq_none {l : List Char}
    (h : ¬ low encAuthLit <:+: low l) : lastMatchOnLine l = none := by
  cases hm : lastMatchOnLine l with
  | none => rfl
  | some g => exact absurd (lastMatchOnLine_contains_lit hm) h

/-- A successful firstLineMatch happens on some member line. -/
theorem firstLineMatch_mem {L : List (List Char)}
    {g : List Char × List Char × List Char}
    (h : firstLineMatch L = some g) :
    ∃ l ∈ L, lastMatchOnLine l = some g := by
  induction L with
  | nil => simp [firstLineMatch] at h
  | cons l ls ih =>
    rw [firstLineMatch] at h
    cases hl : lastMatchOnLine l with
    | some g1 =>
      rw [hl] at h
      exact ⟨l, List.mem_cons_self l ls, by rw [hl, ← h]⟩
    | none =>
      rw [hl] at h
      obtain ⟨m, hm, hmm⟩ := ih h
      exact ⟨m, List.mem_cons_of_mem l hm, hmm⟩

/-- A whole-string match means the string contains the lowered literal. -/
theorem findEncodedMessage_infix {s : List Char}
    {g : List Char × List Char × List Char}
    (h : findEncodedMessage s = some g) : low encAuthLit <:+: low s := by
  rw [findEncodedMessage] at h
  obtain ⟨l, hl, hmatch⟩ := firstLineMatch_mem h
  exact (lastMatchOnLine_contains_lit hmatch).trans
    (low_infix_mono (mem_splitLines_within hl))

/-- The case-insensitive prefix test accepts the pattern itself. -/
theorem ciStartsWith_append (l r : List Char) :
    ciStartsWith l (l ++ r) = true := by
  induction l with
  | nil => rfl
  | cons c cs ih => simp [ciStartsWith, ih]

/-- A string without a newline is split into the single line it forms. -/
theorem splitLines_no_newline {s : List Char} (h : '\n' ∉ s) :
    splitLines s = [s] := by
  induction s with
  | nil => rfl
  | cons c cs ih =>
    have hc : ¬ c = '\n' := fun hc => h (hc ▸ List.mem_cons_self c cs)
    have hcs : '\n' ∉ cs := fun hm => h (List.mem_cons_of_mem c hm)
    simp [splitLines, hc, ih hcs]

/-- Prepending text to a line keeps a match and extends the leading
capture, because the greedy leading group prefers the later position. -/
theorem lastMatchOnLine_append {rest : List Char}
    {g : List Char × List Char × List Char}
    (h : lastMatchOnLine rest = some g) (p : List Char) :
    lastMatchOnLine (p ++ rest) = some (p ++ g.1, g.2.1, g.2.2) := by
  induction p with
  | nil => simpa using h
  | cons c p' ih => simp [lastMatchOnLine, ih]

/-- The pattern step at the position of the literal: the token group is
the following token run and the tail group is computed from what
follows it. -/
theorem matchEncodedAt_lit {t u : List Char} (ht : t ≠ [])
    (htok : ∀ c ∈ t, isTokenChar c = true) :
    matchEncodedAt (encAuthLit ++ (t ++ ' ' :: u)) =
      some (t, tailGroup (' ' :: u)) := by
  rw [matchEncodedAt]
  rw [ciStartsWith_append]
  simp only [if_true]
  rw [List.drop_left]
  have hsp : isTokenChar ' ' = false := rfl
  have htake : (t ++ ' ' :: u).takeWhile isTokenChar = t := by
    rw [List.takeWhile_append_of_pos htok]
    simp [List.takeWhile, hsp]
  have hdrop : (t ++ ' ' :: u).dropWhile isTokenChar = ' ' :: u := by
    rw [List.dropWhile_append_of_pos htok]
    simp [List.dropWhile, hsp]
  rw [htake, hdrop]
  cases t with
  | nil => exact absurd rfl ht
  | cons c cs => simp [List.isEmpty]

/-- takeWhile for the dot run keeps a newline-free list whole. -/
theorem takeWhile_ne_newline {r : List Char} (h : '\n' ∉ r) :
    r.takeWhile (fun c => c ≠ '\n') = r := by
  induction r with
  | nil => rfl
  | cons c cs ih =>
    have hc : ¬ c = '\n' := fun hc => h (hc ▸ List.mem_cons_self c cs)
    have hcs : '\n' ∉ cs := fun hm => h (List.mem_cons_of_mem c hm)
    simp [List.takeWhile_cons, hc]
    intro x hx hx'
    exact hcs (hx' ▸ hx)

/-- The tail capture after a token followed by one space: it is the
whole newline-free trailing text when that text starts with a second
space, and empty otherwise. -/
theorem tailGroup_space {u : List Char} (hu : '\n' ∉ u) :
    tailGroup (' ' :: u) = if u.head? = some ' ' then u else [] := by
  cases u with
  | nil => rfl
  | cons c u' =>
    by_cases hc : c = ' '
    · subst hc
      have hu' : '\n' ∉ u' := fun hm => hu (List.mem_cons_of_mem _ hm)
      simp [tailGroup, takeWhile_ne_newline hu']
      intro x hx hx'
      exact hu' (hx' ▸ hx)
    · rw [tailGroup.eq_def]
      simp [List.head?, hc]

/-- The newline-free characters of the pattern literal. -/
theorem newline_not_mem_encAuthLit : '\n' ∉ encAuthLit := by decide

/-- The full submatch computation on a message of the interesting shape:
one line, the literal occurring nowhere after its displayed position,
a nonempty token run, a single separating space and trailing text. -/
theorem findEncodedMessage_shape {p t u : List Char}
    (hp : '\n' ∉ p) (hu : '\n' ∉ u) (ht : t ≠ [])
    (htok : ∀ c ∈ t, isTokenChar c = true)
    (honce : ¬ low encAuthLit <:+: low (encAuthLit.drop 1 ++ (t ++ ' ' :: u))) :
    findEncodedMessage (p ++ (encAuthLit ++ (t ++ ' ' :: u))) =
      some (p, t, tailGroup (' ' :: u)) := by
  have hlit : '\n' ∉ encAuthLit := newline_not_mem_encAuthLit
  have hts : '\n' ∉ t := fun hm => by
    have := htok '\n' hm
    simp [isTokenChar] at this
  have hline : '\n' ∉ p ++ (encAuthLit ++ (t ++ ' ' :: u)) := by
    intro hm
    rcases List.mem_append.mp hm with h | h
    · exact hp h
    rcases List.mem_append.mp h with h | h
    · exact hlit h
    rcases List.mem_append.mp h with h | h
    · exact hts h
    rcases List.mem_cons.mp h with h | h
    · exact absurd h.symm (by decide)
    · exact hu h
  have hnone : lastMatchOnLine (List.drop 1 encAuthLit ++ (t ++ ' ' :: u)) = none :=
    lastMatchOnLine_eq_none honce
  have hmat : matchEncodedAt (' ' :: (List.drop 1 encAuthLit ++ (t ++ ' ' :: u))) =
      some (t, tailGroup (' ' :: u)) :=
    matchEncodedAt_lit ht htok
  have hrest : lastMatchOnLine (encAuthLit ++ (t ++ ' ' :: u)) =
      some ([], t, tailGroup (' ' :: u)) := by
    show lastMatchOnLine (' ' :: (List.drop 1 encAuthLit ++ (t ++ ' ' :: u))) = _
    rw [lastMatchOnLine, hnone, hmat]
  have hall := lastMatchOnLine_append hrest p
  rw [List.append_nil] at hall
  rw [findEncodedMessage, splitLines_no_newline hline, firstLineMatch, hall]

/-- When every attempt inside the budget is retryable, the modelled
retry helper consumes all its fuel and reports budget exhaustion after
one invocation per fuel unit. -/
theorem resourceRetryGo_timeout {inner : Nat → Option RetryError} :
    ∀ fuel k, (∀ n, k ≤ n → n ≤ k + fuel → ∃ e, inner n = some (.retryable e)) →
    resourceRetryGo inner fuel k = (k + fuel + 1, .timedOut) := by
  intro fuel
  induction fuel with
  | zero =>
    intro k h
    obtain ⟨e, he⟩ := h k le_rfl (Nat.le_add_right k 0)
    rw [resourceRetryGo, he]
  | succ fuel ih =>
    intro k h
    obtain ⟨e, he⟩ := h k le_rfl (Nat.le_add_right k (fuel + 1))
    rw [resourceRetryGo, he]
    have hrec := ih (k + 1) (fun n hn1 hn2 =>
      h n (Nat.le_of_succ_le hn1) (by omega))
    rw [hrec]
    have harith : k + 1 + fuel + 1 = k + (fuel + 1) + 1 := by omega
    rw [harith]

/-- A non-retryable first attempt stops the modelled retry helper at
once, whatever the fuel. -/
theorem resourceRetryGo_failed {inner : Nat → Option RetryError} {k : Nat}
    {e : GoErr} (h : inner k = some (.nonRetryable e)) (fuel : Nat) :
    resourceRetryGo inner fuel k = (k + 1, .failed e) := by
  cases fuel with
  | zero => rw [resourceRetryGo, h]
  | succ fuel => rw [resourceRetryGo, h]

/-- A successful first attempt stops the modelled retry helper at once. -/
theorem resourceRetryGo_ok {inner : Nat → Option RetryError} {k : Nat}
    (h : inner k = none) (fuel : Nat) :
    resourceRetryGo inner fuel k = (k + 1, .ok) := by
  cases fuel with
  | zero => rw [resourceRetryGo, h]
  | succ fuel => rw [resourceRetryGo, h]

/-- String.mk is the inverse of String.data. -/
theorem mk_data (l : List Char) : (String.mk l).data = l := rfl

/-- A non-retryable classification carries the classified error itself. -/
theorem retryClassifyCode_nonRetryable {code : String} {err : Option GoErr}
    {e : GoErr} (h : retryClassifyCode code err = some (.nonRetryable e)) :
    err = some e := by
  cases err with
  | none => simp [retryClassifyCode] at h
  | some e0 =>
    rw [retryClassifyCode] at h
    cases hta : typeAssertAwsErr e0 with
    | none => rw [hta] at h; cases h; rfl
    | some cm =>
      obtain ⟨c, m⟩ := cm
      rw [hta] at h
      by_cases hc : (c == code) = true
      · simp [hc] at h
      · simp only [Bool.not_eq_true] at hc
        simp [hc] at h
        rw [h]

/-- C7: for every error value that lacks the structured error shape
(nil, a plain error, or any chain of wrapped errors ending in a plain
error), the classifier predicates return false for every code, message
substring and status code argument; being total functions they cannot
panic. -/
theorem classifiers_false_on_unstructured (err : Option GoErr)
    (h : err = none ∨ ∃ e, err = some e ∧ errorsAsAwsErr e = none) :
    ∀ (code message : String) (statusCode : Int),
      isAWSErr err code message = false ∧
      isAWSErrRequestFailureStatusCode err statusCode = false := by
  intro code message statusCode
  rcases h with h | ⟨e, he, hAs⟩
  · subst h; exact ⟨rfl, rfl⟩
  · subst he
    refine ⟨?_, ?_⟩
    · simp [isAWSErr, hAs]
    · simp [isAWSErrRequestFailureStatusCode, errorsAsRequestFailure_eq_none hAs]

/-- Witness for C7 at a wrapped plain error. -/
theorem classifiers_false_on_unstructured_witness :
    isAWSErr (some (.wrap "context" (.simple "boom"))) "AccessDenied" "x" = false ∧
    isAWSErrRequestFailureStatusCode (some (.wrap "context" (.simple "boom"))) 403 = false :=
  classifiers_false_on_unstructured (some (.wrap "context" (.simple "boom")))
    (Or.inr ⟨.wrap "context" (.simple "boom"), rfl, rfl⟩) "AccessDenied" "x" 403

/-- C3: when every attempt within the budget fails with an error the
classifier marks retryable, both executors report budget exhaustion,
invoke the operation exactly one more time (invocation number
env budget, after invocations 0 .. env budget - 1) and return that
final invocation result and error verbatim; the internal
budget-exhaustion outcome itself is never returned. -/
theorem retry_budget_exhaustion_final_invocation {α : Type} (env : Nat → Nat)
    (code : String) (codes : List String) (f g : Nat → Option α × Option GoErr) :
    (1 ≤ env (2 * timeMinute) →
      (∀ n, n < env (2 * timeMinute) →
        ∃ e, retryClassifyCode code (f n).2 = some (.retryable e)) →
      retryOnAwsCode env code f = f (env (2 * timeMinute))) ∧
    (1 ≤ env (1 * timeMinute) →
      (∀ n, n < env (1 * timeMinute) →
        ∃ e, retryClassifyCodes codes (g n).2 = some (.retryable e)) →
      RetryOnAwsCodes env codes g = g (env (1 * timeMinute))) := by
  constructor
  · intro hA hf
    have hgo := @resourceRetryGo_timeout (fun n => retryClassifyCode code (f n).2)
      (env (2 * timeMinute) - 1) 0 (fun n hn1 hn2 => hf n (by omega))
    have harith : (0 : Nat) + (env (2 * timeMinute) - 1) + 1 = env (2 * timeMinute) := by
      omega
    rw [harith] at hgo
    simp only [retryOnAwsCode, resourceRetry]
    rw [hgo]
    rfl
  · intro hB hg
    have hgo := @resourceRetryGo_timeout (fun n => retryClassifyCodes codes (g n).2)
      (env (1 * timeMinute) - 1) 0 (fun n hn1 hn2 => hg n (by omega))
    have harith : (0 : Nat) + (env (1 * timeMinute) - 1) + 1 = env (1 * timeMinute) := by
      omega
    rw [harith] at hgo
    simp only [RetryOnAwsCodes, resourceRetry]
    rw [hgo]
    rfl

/-- Witness for C3: with room for two invocations, an operation that
always throttles is invoked a final, third time (index 2) and its
result is returned verbatim. -/
theorem retry_budget_exhaustion_final_invocation_witness :
    retryOnAwsCode exEnv "Throttling" exThrottleOp = exThrottleOp 2 ∧
    RetryOnAwsCodes exEnv ["Throttling"] exThrottleOp = exThrottleOp 2 := by
  have h := retry_budget_exhaustion_final_invocation exEnv "Throttling" ["Throttling"]
    exThrottleOp exThrottleOp
  exact ⟨h.1 (by decide) (fun n hn => ⟨.awsError "Throttling" "busy", rfl⟩),
    h.2 (by decide) (fun n hn => ⟨.awsError "Throttling" "busy", rfl⟩)⟩

/-- C4: an operation that always fails with an error the classifier
marks non-retryable is invoked exactly once, and retryOnAwsCode returns
that invocation result and error unchanged, whatever the remaining
budget. -/
theorem retry_nonretryable_single_invocation {α : Type} (env : Nat → Nat)
    (code : String) (f : Nat → Option α × Option GoErr)
    (h : ∀ n, ∃ e, retryClassifyCode code (f n).2 = some (.nonRetryable e)) :
    retryOnAwsCode env code f = ((f 0).1, (f 0).2) ∧
    (resourceRetry env (2 * timeMinute)
      (fun n => retryClassifyCode code (f n).2)).1 = 1 := by
  obtain ⟨e, he⟩ := h 0
  have hgo := @resourceRetryGo_failed (fun n => retryClassifyCode code (f n).2)
    0 e he (env (2 * timeMinute) - 1)
  have herr := retryClassifyCode_nonRetryable he
  constructor
  · simp only [retryOnAwsCode, resourceRetry]
    rw [hgo, herr]
    rfl
  · simp only [resourceRetry]
    rw [hgo]

/-- Witness for C4: an operation failing with a non-matching code is
invoked once and its error returned. -/
theorem retry_nonretryable_single_invocation_witness :
    retryOnAwsCode exEnv "Throttling" exDeniedOp =
      ((exDeniedOp 0).1, (exDeniedOp 0).2) ∧
    (resourceRetry exEnv (2 * timeMinute)
      (fun n => retryClassifyCode "Throttling" (exDeniedOp n).2)).1 = 1 :=
  retry_nonretryable_single_invocation exEnv "Throttling" exDeniedOp
    (fun _ => ⟨.awsError "AccessDenied" "stop", rfl⟩)

/-- C8: both executors depend on the environment only through the
number of invocations their fixed budgets admit: two minutes for
retryOnAwsCode and one minute for RetryOnAwsCodes (the literal budget
constants, in nanoseconds, are also pinned); and the classifier of
RetryOnAwsCodes marks an error retryable exactly when the direct type
assertion to awserr.Error succeeds and the asserted code equals some
element of the supplied list. -/
theorem retry_budgets_and_predicate :
    (∀ (α : Type) (env env2 : Nat → Nat) (code : String)
      (f : Nat → Option α × Option GoErr),
      env (2 * timeMinute) = env2 (2 * timeMinute) →
      retryOnAwsCode env code f = retryOnAwsCode env2 code f) ∧
    (∀ (α : Type) (env env2 : Nat → Nat) (codes : List String)
      (f : Nat → Option α × Option GoErr),
      env (1 * timeMinute) = env2 (1 * timeMinute) →
      RetryOnAwsCodes env codes f = RetryOnAwsCodes env2 codes f) ∧
    (∀ (codes : List String) (e : GoErr),
      retryClassifyCodes codes (some e) = some (.retryable e) ↔
        ∃ c m, typeAssertAwsErr e = some (c, m) ∧ c ∈ codes) ∧
    2 * timeMinute = 120000000000 ∧ 1 * timeMinute = 60000000000 := by
  refine ⟨?_, ?_, ?_, rfl, rfl⟩
  · intro α env env2 code f hb
    simp only [retryOnAwsCode, resourceRetry, hb]
  · intro α env env2 codes f hb
    simp only [RetryOnAwsCodes, resourceRetry, hb]
  · intro codes e
    rw [retryClassifyCodes]
    cases hta : typeAssertAwsErr e with
    | none => simp [hta]
    | some cm =>
      obtain ⟨c, m⟩ := cm
      by_cases hc : codes.contains c = true
      · have hmem : c ∈ codes := List.elem_iff.mp hc
        simp [hta, hc, hmem]
      · have hmem : c ∉ codes := fun hm => hc (List.elem_iff.mpr hm)
        simp [hta, hc]

/-- Witness for C8: changing the environment away from the two minute
point does not change retryOnAwsCode, and a code contained in the list
makes a structured error retryable for RetryOnAwsCodes. -/
theorem retry_budgets_and_predicate_witness :
    retryOnAwsCode exEnv "Throttling" exThrottleOp =
      retryOnAwsCode (fun b => if b = 120000000000 then 2 else 7) "Throttling"
        exThrottleOp ∧
    retryClassifyCodes ["AccessDenied", "Throttling"]
      (some (.awsError "Throttling" "busy")) =
      some (.retryable (.awsError "Throttling" "busy")) := by
  have h := retry_budgets_and_predicate
  refine ⟨h.1 Nat exEnv (fun b => if b = 120000000000 then 2 else 7) "Throttling"
    exThrottleOp (by decide), ?_⟩
  exact (h.2.2.1 ["AccessDenied", "Throttling"] (.awsError "Throttling" "busy")).mpr
    ⟨"Throttling", "busy", rfl, by decide⟩

/-- C10: the executors classify with a direct type assertion, so an
operation always failing with an error that merely wraps a structured
error carrying the retried code is treated as non-retryable: both
executors stop after exactly one invocation and return the wrapped
error, while the errors.As based classifier isAWSErr does unwrap it and
match. -/
theorem retry_wrapped_error_not_retried {α : Type} (env : Nat → Nat)
    (code cmsg wmsg : String) (codes : List String)
    (f : Nat → Option α × Option GoErr) (_hcodes : code ∈ codes)
    (hf : ∀ n, (f n).2 = some (.wrap wmsg (.awsError code cmsg))) :
    retryOnAwsCode env code f = ((f 0).1, (f 0).2) ∧
    RetryOnAwsCodes env codes f = ((f 0).1, (f 0).2) ∧
    (resourceRetry env (2 * timeMinute)
      (fun n => retryClassifyCode code (f n).2)).1 = 1 ∧
    (resourceRetry env (1 * timeMinute)
      (fun n => retryClassifyCodes codes (f n).2)).1 = 1 ∧
    isAWSErr ((f 0).2) code cmsg = true := by
  have hcls : retryClassifyCode code (f 0).2 =
      some (.nonRetryable (.wrap wmsg (.awsError code cmsg))) := by
    rw [hf 0]; rfl
  have hcls2 : retryClassifyCodes codes (f 0).2 =
      some (.nonRetryable (.wrap wmsg (.awsError code cmsg))) := by
    rw [hf 0]; rfl
  have hgo := @resourceRetryGo_failed (fun n => retryClassifyCode code (f n).2)
    0 (.wrap wmsg (.awsError code cmsg)) hcls (env (2 * timeMinute) - 1)
  have hgo2 := @resourceRetryGo_failed (fun n => retryClassifyCodes codes (f n).2)
    0 (.wrap wmsg (.awsError code cmsg)) hcls2 (env (1 * timeMinute) - 1)
  refine ⟨?_, ?_, ?_, ?_, ?_⟩
  · simp only [retryOnAwsCode, resourceRetry]
    rw [hgo, hf 0]
    rfl
  · simp only [RetryOnAwsCodes, resourceRetry]
    rw [hgo2, hf 0]
    rfl
  · simp only [resourceRetry]
    rw [hgo]
  · simp only [resourceRetry]
    rw [hgo2]
  · rw [hf 0]
    simp only [isAWSErr, errorsAsAwsErr]
    rw [beq_self_eq_true]
    simp [stringsContains, List.infix_refl]

/-- Witness for C10: a wrapped Throttling error is returned after one
invocation although isAWSErr recognises the Throttling code inside. -/
theorem retry_wrapped_error_not_retried_witness :
    retryOnAwsCode exEnv "Throttling" exWrappedOp =
      ((exWrappedOp 0).1, (exWrappedOp 0).2) ∧
    RetryOnAwsCodes exEnv ["Throttling"] exWrappedOp =
      ((exWrappedOp 0).1, (exWrappedOp 0).2) ∧
    (resourceRetry exEnv (2 * timeMinute)
      (fun n => retryClassifyCode "Throttling" (exWrappedOp n).2)).1 = 1 ∧
    (resourceRetry exEnv (1 * timeMinute)
      (fun n => retryClassifyCodes ["Throttling"] (exWrappedOp n).2)).1 = 1 ∧
    isAWSErr ((exWrappedOp 0).2) "Throttling" "busy" = true :=
  retry_wrapped_error_not_retried exEnv "Throttling" "busy" "operation failed"
    ["Throttling"] exWrappedOp (by decide) (fun _ => rfl)

/-- C5: a decode-service failure is swallowed: whenever the message
matches the pattern and the decode call itself errors, the original
error value is returned unchanged. -/
theorem decode_failure_returns_original (e : GoErr) (d : StsDecoderImpl)
    (g1 g2 g3 : List Char) (de : GoErr)
    (hm : findEncodedMessage e.errString.data = some (g1, g2, g3))
    (hd : d { EncodedMessage := awsString (String.mk g2) } = .error de) :
    decodeAWSError (some d) (some e) = .ok (some e) := by
  simp only [decodeAWSError, hm, hd]

/-- Witness for C5 at a matching message and an always-failing decoder. -/
theorem decode_failure_returns_original_witness :
    decodeAWSError (some exFailDecoder)
      (some (.simple "denied Encoded authorization failure message: tok-9")) =
      .ok (some (.simple "denied Encoded authorization failure message: tok-9")) :=
  decode_failure_returns_original
    (.simple "denied Encoded authorization failure message: tok-9") exFailDecoder
    "denied".data "tok-9".data [] (.simple "unable to decode") (by decide) rfl

/-- Counterexample for C2: with a nil decoder capability and an error
whose message matches the pattern, decode does not return the error
unchanged; the unguarded method call on the nil decoder interface
panics.  This includes messages the pattern reaches only through
simple case folding, such as a marker written with U+017F. -/
theorem decode_nil_decoder_counterexample :
    decodeAWSError none (some exC2Err) = .panicked ∧
    decodeAWSError none (some exC2Err) ≠ .ok (some exC2Err) ∧
    decodeAWSError none (some exC6FoldErr) = .panicked ∧
    decodeAWSError none (some exC6FoldErr) ≠ .ok (some exC6FoldErr) :=
  ⟨by decide, by decide, by decide, by decide⟩

/-- C2 amended: a nil error is returned unchanged without invoking the
decoder and without panicking, for any decoder including a nil one; and
for any error whose message does not match the pattern the decoder is
never invoked, so a nil decoder is harmless there as well.  (Only when
the pattern matches is the decoder invoked unconditionally, where a nil
decoder panics.) -/
theorem decode_nil_inputs (d : Option StsDecoderImpl) (e : GoErr)
    (h : findEncodedMessage e.errString.data = none) :
    decodeAWSError d none = .ok none ∧
    decodeAWSError d (some e) = .ok (some e) := by
  refine ⟨rfl, ?_⟩
  simp only [decodeAWSError, h]

/-- Witness for C2 amended, with the nil decoder itself. -/
theorem decode_nil_inputs_witness :
    decodeAWSError none none = .ok none ∧
    decodeAWSError none (some (.simple "plain failure")) =
      .ok (some (.simple "plain failure")) :=
  decode_nil_inputs none (.simple "plain failure") (by decide)

/-- Counterexample for C6: the pattern matches case-insensitively with
simple folding, so a message that does not contain the substring
"Encoded authorization failure message:" is nevertheless rewritten and
the decoder invoked: once for a marker in lower case, and once for a
marker written with U+017F (long s), which not even an
ASCII-case-insensitive comparison finds. -/
theorem decode_case_insensitive_counterexample :
    stringsContains exC6Err.errString "Encoded authorization failure message:" = false ∧
    decodeAWSError (some exDecoder) (some exC6Err) =
      .ok (some (.simple " Authorization failure message: \x27DECODED_TEXT\x27")) ∧
    decodeAWSError (some exDecoder) (some exC6Err) ≠ .ok (some exC6Err) ∧
    stringsContains exC6FoldErr.errString "Encoded authorization failure message:" = false ∧
    decodeAWSError (some exDecoder) (some exC6FoldErr) =
      .ok (some (.simple " Authorization failure message: \x27DECODED_TEXT\x27")) ∧
    decodeAWSError (some exDecoder) (some exC6FoldErr) ≠ .ok (some exC6FoldErr) :=
  ⟨by decide, by decide, by decide, by decide, by decide, by decide⟩

/-- C6 amended: for every non-nil error whose message does not contain
the substring "Encoded authorization failure message:" under the
simple case folding the compiled pattern uses (ASCII case pairs plus
U+017F folding with s and U+212A folding with k), decode returns the
very same error and never invokes the decode service (it holds for
every decoder capability, the nil one included). -/
theorem decode_identity_without_marker (e : GoErr)
    (h : ¬ low "Encoded authorization failure message:".data <:+:
      low e.errString.data) :
    ∀ d : Option StsDecoderImpl, decodeAWSError d (some e) = .ok (some e) := by
  intro d
  have hnone : findEncodedMessage e.errString.data = none := by
    cases hm : findEncodedMessage e.errString.data with
    | none => rfl
    | some g =>
      exfalso
      have hinf := findEncodedMessage_infix hm
      have hsub : low "Encoded authorization failure message:".data <:+:
          low encAuthLit := ⟨[' '], [' '], by decide⟩
      exact h (hsub.trans hinf)
  simp only [decodeAWSError, hnone]

/-- Witness for C6 amended at a plain error without the marker. -/
theorem decode_identity_without_marker_witness :
    decodeAWSError (some exDecoder) (some (.simple "throttled, retry later")) =
      .ok (some (.simple "throttled, retry later")) ∧
    decodeAWSError none (some (.simple "throttled, retry later")) =
      .ok (some (.simple "throttled, retry later")) := by
  have h := decode_identity_without_marker (.simple "throttled, retry later") (by decide)
  exact ⟨h (some exDecoder), h none⟩

/-- Counterexample for C1: on the spec example message the trailing
text " extra info" is not preserved: the optional space of the pattern
eats the separating space, the final group then finds no second space
and captures nothing, so the rewritten message ends at the closing
quote. -/
theorem decode_trailing_text_counterexample :
    decodeAWSError (some exDecoder) (some (.simple exMsg)) =
      .ok (some (.simple
        "AccessDenied: you are not authorized. Authorization failure message: \x27DECODED_TEXT\x27")) ∧
    decodeAWSError (some exDecoder) (some (.simple exMsg)) ≠
      .ok (some (.simple
        "AccessDenied: you are not authorized. Authorization failure message: \x27DECODED_TEXT\x27 extra info")) :=
  ⟨by decide, by decide⟩

/-- C1 amended: for a message of shape prefix, marker literal, token,
one space, trailing text (one line, no later fold-insensitive marker
occurrence),
a successful decode returns a new error whose message is the prefix,
the rewritten marker, the quoted decoded plaintext and the capture of
the final group; that capture is empty unless the trailing text begins
with a second space, in which case it is the trailing text with the
separating space included.  In particular a single-space separated
trailing text is dropped. -/
theorem decode_success_rewrite (p t u : List Char) (d : StsDecoderImpl)
    (dec : String) (hp : '\n' ∉ p) (hu : '\n' ∉ u) (ht : t ≠ [])
    (htok : ∀ c ∈ t, isTokenChar c = true)
    (honce : ¬ low encAuthLit <:+: low (encAuthLit.drop 1 ++ (t ++ ' ' :: u)))
    (hd : d { EncodedMessage := some (String.mk t) } =
      .ok { DecodedMessage := some dec }) :
    decodeAWSError (some d)
      (some (.simple (String.mk (p ++ (encAuthLit ++ (t ++ ' ' :: u)))))) =
      .ok (some (.simple (String.mk p ++ " Authorization failure message: \x27"
        ++ dec ++ "\x27" ++ String.mk (tailGroup (' ' :: u))))) ∧
    tailGroup (' ' :: u) = (if u.head? = some ' ' then u else []) := by
  refine ⟨?_, tailGroup_space hu⟩
  have hm := findEncodedMessage_shape hp hu ht htok honce
  simp only [decodeAWSError, GoErr.errString, mk_data, hm, awsString, hd,
    awsStringValue]

/-- Witness for C1 amended at the spec example: the trailing text
"extra info" follows a single space and is dropped. -/
theorem decode_success_rewrite_witness :
    decodeAWSError (some exDecoder) (some (.simple exMsg)) =
      .ok (some (.simple
        "AccessDenied: you are not authorized. Authorization failure message: \x27DECODED_TEXT\x27")) ∧
    tailGroup (' ' :: "extra info".data) = [] := by
  have h := decode_success_rewrite "AccessDenied: you are not authorized.".data
    "AbCd123-xyz".data "extra info".data exDecoder "DECODED_TEXT"
    (by decide) (by decide) (by decide) (by decide) (by decide) rfl
  exact ⟨h.1, h.2⟩

/-- Counterexample for C9: a resource whose lifecycle slots are all
empty (its Importer object is present but holds a nil State function)
is still changed by the decoration: the empty import-state slot is
replaced by a non-empty wrapper, because the source guards only on the
Importer object and not on its State function. -/
theorem decorate_empty_import_counterexample :
    exImporterOnlyResource.Create = none ∧
    exImporterOnlyResource.Read = none ∧
    exImporterOnlyResource.Update = none ∧
    exImporterOnlyResource.Delete = none ∧
    exImporterOnlyResource.Exists = none ∧
    exImporterOnlyResource.Importer.map (fun i => i.State.isSome) = some false ∧
    (decodeErrorsForResource exImporterOnlyResource).Importer.map
      (fun i => i.State.isSome) = some true :=
  ⟨rfl, rfl, rfl, rfl, rfl, rfl, rfl⟩

/-- C9 amended: decoration maps every resource in place (same names, in
order, none added or removed), replaces each non-empty slot by its
wrapper and keeps empty Create, Read, Update, Delete and Exists slots
empty; the import-state slot is wrapped whenever the Importer object is
present, even when its State function is empty; and each wrapper
returns the original non-error results (the exists boolean and the
imported state collection) unchanged, altering at most the error by
passing it through the decoder. -/
theorem decorate_all_behaviour :
    (∀ rs : List (String × Resource),
      (makeAuthZMessageDecodingResources rs).map Prod.fst = rs.map Prod.fst) ∧
    (∀ rs : List (String × Resource),
      makeAuthZMessageDecodingResources rs =
        rs.map fun nr => (nr.1, decodeErrorsForResource nr.2)) ∧
    (∀ r : Resource,
      (decodeErrorsForResource r).Create = r.Create.map wrapLifecycle ∧
      (decodeErrorsForResource r).Read = r.Read.map wrapLifecycle ∧
      (decodeErrorsForResource r).Update = r.Update.map wrapLifecycle ∧
      (decodeErrorsForResource r).Delete = r.Delete.map wrapLifecycle ∧
      (decodeErrorsForResource r).Exists = r.Exists.map wrapExists ∧
      (r.Importer = none → (decodeErrorsForResource r).Importer = none) ∧
      (∀ imp, r.Importer = some imp →
        (decodeErrorsForResource r).Importer =
          some { State := some (wrapImportState imp.State) })) ∧
    (∀ (g : LifecycleFunc) (d : ResourceData) (m : AWSClient) (e : Option GoErr),
      g d m = .ok e → wrapLifecycle g d m = decodeAWSError (some m.stsconn) e) ∧
    (∀ (g : ExistsFunc) (d : ResourceData) (m : AWSClient) (b : Bool)
      (e e2 : Option GoErr),
      g d m = .ok (b, e) → decodeAWSError (some m.stsconn) e = .ok e2 →
      wrapExists g d m = .ok (b, e2)) ∧
    (∀ (g : ImportStateFunc) (d : ResourceData) (m : AWSClient)
      (rds : List ResourceData) (e e2 : Option GoErr),
      g d m = .ok (rds, e) → decodeAWSError (some m.stsconn) e = .ok e2 →
      wrapImportState (some g) d m = .ok (rds, e2)) := by
  refine ⟨?_, fun rs => rfl, ?_, ?_, ?_, ?_⟩
  · intro rs
    induction rs with
    | nil => rfl
    | cons a tl ih =>
      simp only [makeAuthZMessageDecodingResources, List.map_cons] at *
      rw [ih]
  · intro r
    refine ⟨rfl, rfl, rfl, rfl, rfl, ?_, ?_⟩
    · intro h
      simp only [decodeErrorsForResource, h]
    · intro imp h
      simp only [decodeErrorsForResource, h]
  · intro g d m e hg
    simp only [wrapLifecycle, hg]
  · intro g d m b e e2 hg hdec
    simp only [wrapExists, hg, hdec]
  · intro g d m rds e e2 hg hdec
    simp only [wrapImportState, hg, hdec]

/-- Witness for C9 amended at a one-resource map, a create returning an
encoded authorization error and an exists succeeding without error. -/
theorem decorate_all_behaviour_witness :
    (makeAuthZMessageDecodingResources [("aws_thing", exResource)]).map Prod.fst =
      [("aws_thing", exResource)].map Prod.fst ∧
    (decodeErrorsForResource exResource).Create = some (wrapLifecycle exCreateImpl) ∧
    (decodeErrorsForResource exResource).Read = none ∧
    (decodeErrorsForResource exResource).Importer = none ∧
    wrapExists exExistsImpl exData exClient = .ok (true, none) := by
  have h := decorate_all_behaviour
  refine ⟨h.1 [("aws_thing", exResource)], ?_, ?_, ?_, ?_⟩
  · exact (h.2.2.1 exResource).1
  · exact (h.2.2.1 exResource).2.1
  · exact (h.2.2.1 exResource).2.2.2.2.2.1 rfl
  · exact h.2.2.2.2.1 exExistsImpl exData exClient true none none rfl rfl
